import Mathlib

/-!
Verification of the task-execution pipeline of the mcp-project repository.

The development shallowly embeds the pieces of the TypeScript source that the
verified properties are about:

* `detectIntent`, `updateStage` — `src/mcp-server/src/validation.ts`
* `dispatchTool`, `dispatchToolWithChaining`, `transformResultForNext`,
  `getAvailableTools` — `src/mcp-server/src/tools/dispatcher.ts`
* the `/api/stream-execute` SSE handler — `src/mcp-server/src/index.ts`
* `executeTaskInternal`, `executeTasksSequentially` — `src/client/src/App.tsx`

JavaScript strings are modelled as Lean `String`s (sequences of characters;
the UTF-16 code-unit view of JS strings is abstracted to the character view).
The JavaScript string operations used by the source are re-implemented below
with their JS semantics so that the proofs can reason about them directly.
External collaborators (tool adapters, the WHATWG URL parser, the summarizer
stream) enter the model as parameters, exactly at the points where the source
awaits them.
-/

deriving instance DecidableEq for Except

namespace MCP

/-! ### JavaScript string primitives -/

/-- ASCII fragment of JavaScript `String.prototype.toLowerCase` (all keyword
patterns in the source are ASCII). -/
def lowerChar (c : Char) : Char :=
  if 'A' ≤ c ∧ c ≤ 'Z' then Char.ofNat (c.toNat + 32) else c

/-- JS `s.toLowerCase()`. -/
def jsToLower (s : String) : String := ⟨s.data.map lowerChar⟩

/-- JS `s.includes(pat)`. -/
def jsIncludes (s pat : String) : Bool := decide (pat.data <:+: s.data)

/-- JS `s.startsWith(pat)`. -/
def jsStartsWith (s pat : String) : Bool := decide (pat.data <+: s.data)

/-- The ASCII part of the JS `\s` character class / `trim` whitespace set. -/
def isSpaceJs (c : Char) : Bool :=
  c = ' ' || c = '\t' || c = '\n' || c = '\r' || c = '\x0b' || c = '\x0c'

/-- JS `s.trim()` on character lists. -/
def trimL (l : List Char) : List Char :=
  ((l.dropWhile isSpaceJs).reverse.dropWhile isSpaceJs).reverse

/-- JS `s.trim()`. -/
def jsTrim (s : String) : String := ⟨trimL s.data⟩

/-- JS `s.split(sep)` for a single-character separator, on character lists. -/
def splitOnCharL (sep : Char) : List Char → List (List Char)
  | [] => [[]]
  | c :: cs =>
    match splitOnCharL sep cs with
    | [] => [[]]
    | l :: ls => if c = sep then [] :: l :: ls else (c :: l) :: ls

/-- JS `s.split('\n')`. -/
def splitLines (s : String) : List String :=
  (splitOnCharL '\n' s.data).map (fun l => ⟨l⟩)

/-- JS `pieces.join(sep)` for a single-character separator, on character
lists. -/
def joinWithSep (sep : Char) : List (List Char) → List Char
  | [] => []
  | [x] => x
  | x :: y :: rest => x ++ sep :: joinWithSep sep (y :: rest)

/-- JS `lines.join('\n')`. -/
def joinLines (ls : List String) : String :=
  ⟨joinWithSep '\n' (ls.map String.data)⟩

/-- JS `s.replace(/pat/g, '')` (global removal of a literal pattern), on
character lists.  Scans left to right, removing non-overlapping matches.  The
scan consumes at least one character per step, so an explicit fuel counter
initialised to the list length makes the recursion structural (and hence
kernel-reducible); fuel zero on a non-empty list is unreachable. -/
def removeAllL (pat : List Char) (l : List Char) : List Char :=
  go l.length l
where
  go : Nat → List Char → List Char
    | _, [] => []
    | 0, rest => rest
    | fuel + 1, c :: cs =>
      if pat ≠ [] ∧ pat.isPrefixOf (c :: cs) then
        go fuel (List.drop (pat.length - 1) cs)
      else
        c :: go fuel cs

/-- JS `s.replace(/pat/g, '')`. -/
def jsRemoveAll (s pat : String) : String := ⟨removeAllL pat.data s.data⟩

/-- JS `s.substring(0, n)`. -/
def jsSubstringTo (s : String) (n : Nat) : String := ⟨s.data.take n⟩

/-! ### Intent classification (`detectIntent`, `src/mcp-server/src/validation.ts`) -/

/-- The eight query intent categories of the pipeline
(`QueryIntent` in `validation.ts`). -/
inductive QueryIntent where
  | factual
  | comparison
  | research
  | real_time
  | action
  | calculation
  | creative
  | general
deriving DecidableEq, Repr

/-- Operator class `[\+\-\*\/]` of the calculation regex. -/
def isArithOp (c : Char) : Bool := c = '+' || c = '-' || c = '*' || c = '/'

/-- Whether the regex `\d+\s*[\+\-\*\/]\s*\d+` matches at the very start of
the list.  The greedy scan is equivalent to the regex because the digit,
whitespace and operator character classes are pairwise disjoint. -/
def arithMatchAt (l : List Char) : Bool :=
  match l with
  | [] => false
  | c :: cs =>
    c.isDigit &&
      (match ((cs.dropWhile Char.isDigit).dropWhile isSpaceJs) with
       | [] => false
       | op :: rest =>
         isArithOp op &&
           (match rest.dropWhile isSpaceJs with
            | [] => false
            | d :: _ => d.isDigit))

/-- Whether `lowerQuery.match(/\d+\s*[\+\-\*\/]\s*\d+/)` finds a match
anywhere in the string. -/
def hasArithPattern (s : String) : Bool :=
  go s.data
where
  go : List Char → Bool
    | [] => false
    | c :: cs => arithMatchAt (c :: cs) || go cs

/-- Embedding of `detectIntent` from `validation.ts`: ordered keyword/pattern rules over the
lower-cased query, first matching rule wins, `general` as default. -/
def detectIntent (query : String) : QueryIntent :=
  let lq := jsToLower query
  if jsIncludes lq " vs " || jsIncludes lq "versus" || jsIncludes lq "compare" ||
      jsIncludes lq "difference between" || jsIncludes lq "better than" then
    .comparison
  else if jsIncludes lq "weather" || jsIncludes lq "stock price" || jsIncludes lq "current" ||
      jsIncludes lq "today" || jsIncludes lq "right now" || jsIncludes lq "live" then
    .real_time
  else if hasArithPattern lq || jsIncludes lq "calculate" || jsIncludes lq "convert" ||
      jsIncludes lq "how much is" || jsIncludes lq "currency" then
    .calculation
  else if jsIncludes lq "create" || jsIncludes lq "write" || jsIncludes lq "send" ||
      jsIncludes lq "schedule" || jsIncludes lq "delete" || jsIncludes lq "make a file" then
    .action
  else if jsStartsWith lq "what is" || jsStartsWith lq "who is" || jsStartsWith lq "when did" ||
      jsStartsWith lq "where is" || jsStartsWith lq "define" || jsIncludes lq "meaning of" then
    .factual
  else if jsIncludes lq "explain" || jsIncludes lq "how does" || jsIncludes lq "why is" ||
      jsIncludes lq "research" || jsIncludes lq "analysis" || jsIncludes lq "in depth" ||
      decide (lq.length > 100) then
    .research
  else if jsIncludes lq "generate" || jsIncludes lq "write me" || jsIncludes lq "create a story" ||
      jsIncludes lq "poem" || jsIncludes lq "creative" then
    .creative
  else
    .general

/-! ### Pipeline context and stage tracking (`validation.ts`) -/

/-- The coarse pipeline stages (`PipelineStage` in `validation.ts`). -/
inductive PipelineStage where
  | idle
  | query_parsing
  | tool_selection
  | executing
  | summarizing
  | complete
  | failed
deriving DecidableEq, Repr

/-- Raw tool output plus success flag per completed task
(`TaskResult` in `validation.ts`). -/
structure TaskResult where
  taskId : String
  tool : String
  rawResult : String
  summary : Option String
  success : Bool
  error : Option String
deriving DecidableEq, Repr

/-- Structured source reference (`Citation` in `validation.ts`). -/
structure Citation where
  index : Nat
  title : String
  url : String
  snippet : Option String
deriving DecidableEq, Repr

/-- Embedding of `PipelineContext` from `validation.ts`.  Timestamps (`Date.now()` values)
are modelled as natural numbers. -/
structure PipelineContext where
  originalQuery : String
  intent : QueryIntent
  decomposedQueries : List String
  selectedTool : String
  taskResults : List TaskResult
  finalAnswer : String
  citations : List Citation
  stage : PipelineStage
  progress : Nat
  startTime : Nat
  endTime : Option Nat
deriving DecidableEq, Repr

/-- Embedding of `updateStage` from `validation.ts`.  The source reads the clock with
`Date.now()`; the clock value is the explicit argument `now` here.  The object
spread keeps every other field of the context unchanged, and the `endTime`
property is `undefined` (modelled `none`) unless the new stage is terminal. -/
def updateStage (context : PipelineContext) (stage : PipelineStage) (progress : Nat)
    (now : Nat) : PipelineContext :=
  { context with
    stage := stage
    progress := progress
    endTime := if stage = .complete ∨ stage = .failed then some now else none }

/-! ### Tool registry and dispatcher (`src/mcp-server/src/tools/dispatcher.ts`)

Tool payloads are open key/value JS objects; values are modelled by `JsVal`.
A JS object is modelled as an association list whose lookup (`getProp`) finds
the first binding; object construction keeps the later-wins semantics of
object spread via `spreadOver`. -/

/-- Payload values (the fragment of JS values the dispatcher manipulates). -/
inductive JsVal where
  | str (s : String)
  | num (n : Int)
  | bool (b : Bool)
deriving DecidableEq, Repr

/-- A JS object, as passed for tool payloads. -/
abbrev Payload := List (String × JsVal)

/-- Property lookup on a payload object. -/
def getProp (p : Payload) (k : String) : Option JsVal :=
  (p.find? (fun kv => kv.1 = k)).map (fun kv => kv.2)

/-- JS object spread `{ ...base, ...upd }`: keys of `upd` win on conflict. -/
def spreadOver (base upd : Payload) : Payload :=
  base.filter (fun kv => (upd.find? (fun kv2 => kv2.1 = kv.1)).isNone) ++ upd

/-- JS string interpolation of a possibly-absent payload property
(an absent property interpolates as "undefined"). -/
def jsValToString : Option JsVal → String
  | some (.str s) => s
  | some (.num n) => toString n
  | some (.bool b) => toString b
  | none => "undefined"

/-- Embedding of `ToolDefinition` from `dispatcher.ts`. -/
structure ToolDefinition where
  name : String
  description : String
  payloadExample : Payload
  enabled : Bool
deriving DecidableEq, Repr

/-- The `enabled` flags of `TOOL_DEFINITIONS` are read from `process.env` at
startup; this record carries the resulting booleans (configuration loading is
out of scope, the dispatcher only reads these flags). -/
structure EnvFlags where
  enableFilesystem : Bool
  enableGithub : Bool
  enableSlack : Bool
  enableCalendar : Bool
  allowTerminal : Bool
  enableBrowser : Bool
  enableSearch : Bool
  enableLeetcode : Bool
  enableUtility : Bool

/-- Embedding of `TOOL_DEFINITIONS` from `dispatcher.ts` (the static built-in registry). -/
def TOOL_DEFINITIONS (env : EnvFlags) : List ToolDefinition :=
  [ ⟨"filesystem",
     "Read, write, list, delete LOCAL files only. NOT for web content - use search/browser for web. NEVER save web search results to files.",
     [("action", .str "write"), ("path", .str "notes.md"), ("content", .str "# My Notes")],
     env.enableFilesystem⟩,
    ⟨"github",
     "Create issues, PRs, and fetch repository information",
     [("action", .str "create_issue"), ("repo", .str "owner/repo"), ("title", .str "Bug report"), ("body", .str "Description")],
     env.enableGithub⟩,
    ⟨"slack",
     "Send messages to Slack channels or users",
     [("action", .str "send_message"), ("channel", .str "#general"), ("message", .str "Hello team!")],
     env.enableSlack⟩,
    ⟨"calendar",
     "Create, list, and delete calendar events",
     [("action", .str "create_event"), ("title", .str "Meeting"), ("date", .str "2024-01-15"), ("time", .str "10:00")],
     env.enableCalendar⟩,
    ⟨"terminal",
     "Execute whitelisted terminal commands (ls, cat, echo, pwd, date, whoami)",
     [("action", .str "execute"), ("command", .str "ls -la")],
     env.allowTerminal⟩,
    ⟨"browser",
     "Fetch content from URLs safely. For stock prices, use Yahoo Finance API",
     [("action", .str "fetch"), ("url", .str "https://query1.finance.yahoo.com/v8/finance/chart/AAPL"), ("method", .str "GET")],
     env.enableBrowser⟩,
    ⟨"search",
     "Web search for news (HackerNews), facts, and definitions (DuckDuckGo/Wikipedia)",
     [("action", .str "search"), ("query", .str "latest AI news")],
     env.enableSearch⟩,
    ⟨"leetcode",
     "Fetch LeetCode problems with description, examples, and starter code",
     [("action", .str "get_problem"), ("problemId", .num 1)],
     env.enableLeetcode⟩,
    ⟨"mcp_registry",
     "Search for other MCP servers and tools (e.g. sqlite, postgres, etc.)",
     [("action", .str "search"), ("query", .str "database")],
     true⟩,
    ⟨"utility",
     "Useful utilities: weather, time, currency/convert_currency, math, crypto, translate, ip, system, uuid, joke",
     [("action", .str "weather"), ("location", .str "London")],
     env.enableUtility⟩ ]

/-- Embedding of `CustomToolConfig` from `adapters/custom.ts` (entries of
`custom_tools.json`). -/
structure CustomToolConfig where
  name : String
  description : String
  type : String
  command : Option String
  url : Option String
  method : Option String
deriving DecidableEq, Repr

/-- Embedding of `getAvailableTools` from `dispatcher.ts`: enabled built-ins in declaration
order, then the loaded custom tools appended. -/
def getAvailableTools (env : EnvFlags) (customTools : List CustomToolConfig) :
    List ToolDefinition :=
  (TOOL_DEFINITIONS env).filter (fun t => t.enabled) ++
    customTools.map (fun ct =>
      ⟨ct.name, ct.description, [("toolName", .str ct.name), ("arg1", .str "value")], true⟩)

/-- The external collaborators the dispatcher awaits: one adapter function per
built-in tool, the custom-tool adapter, and the WHATWG `new URL` parser
(returning hostname and pathname, or `none` when the constructor throws).
An adapter either returns a string or throws an error message. -/
structure Adapters where
  filesystem : Payload → Except String String
  github : Payload → Except String String
  slack : Payload → Except String String
  calendar : Payload → Except String String
  terminal : Payload → Except String String
  browser : Payload → Except String String
  search : Payload → Except String String
  leetcode : Payload → Except String String
  mcpRegistry : Payload → Except String String
  utility : Payload → Except String String
  custom : Payload → CustomToolConfig → Except String String
  parseUrl : String → Option (String × String)

/-- JS `pathname.replace(/\//g, ' ')`: every slash becomes a space. -/
def slashesToSpaces (s : String) : String :=
  ⟨s.data.map (fun c => if c = '/' then ' ' else c)⟩

/-- The search query the browser fallback derives from the failed URL
(`dispatcher.ts` lines 181-188): on a parsable URL, the template
``hostname pathname-with-slashes-as-spaces`` trimmed at the ends; if URL
parsing throws, the raw URL string is used as-is. -/
def deriveSearchQuery (url : String) (parsed : Option (String × String)) : String :=
  match parsed with
  | some (host, path) => jsTrim (host ++ " " ++ slashesToSpaces path)
  | none => url

/-- The payload the browser fallback passes to `executeSearch`. -/
def fallbackSearchPayload (searchQuery : String) : Payload :=
  [("action", .str "search"), ("query", .str searchQuery),
   ("limit", .num 5), ("deepFetch", .bool true)]

/-- The two `onLog` lines the dispatcher emits on the browser fallback path. -/
def fallbackLogs (url searchQuery : String) : List String :=
  ["[Dispatcher] Browser failed for " ++ url ++ ", falling back to search...",
   "[Dispatcher] Searching for: \"" ++ searchQuery ++ "\""]

/-- Whether an optional tool definition resolves to an enabled tool
(`!toolDef || !toolDef.enabled` negated). -/
def builtinEnabled : Option ToolDefinition → Bool
  | some d => d.enabled
  | none => false

/-- Embedding of `dispatchTool` from `dispatcher.ts`.  Returns the ordered list of lines the
dispatcher itself pushes into `onLog`, paired with the result (`Except.error`
models a thrown `Error` carrying its message).  Lines the adapters push into
`onLog` are part of the adapter collaborators and are not tracked here. -/
def dispatchTool (env : EnvFlags) (customTools : List CustomToolConfig) (A : Adapters)
    (tool : String) (payload : Payload) : List String × Except String String :=
  let toolDef := (TOOL_DEFINITIONS env).find? (fun t => t.name = tool)
  let customToolConfig := customTools.find? (fun t => t.name = tool)
  if !builtinEnabled toolDef && customToolConfig.isNone then
    ([], .error ("Tool \x27" ++ tool ++ "\x27 is not enabled or does not exist."))
  else
    match customToolConfig with
    | some cfg => ([], A.custom (spreadOver [("toolName", .str tool)] payload) cfg)
    | none =>
      if tool = "filesystem" then ([], A.filesystem payload)
      else if tool = "github" then ([], A.github payload)
      else if tool = "slack" then ([], A.slack payload)
      else if tool = "calendar" then ([], A.calendar payload)
      else if tool = "terminal" then ([], A.terminal payload)
      else if tool = "browser" then
        match A.browser payload with
        | .ok r => ([], .ok r)
        | .error _ =>
          let url := jsValToString (getProp payload "url")
          let searchQuery := deriveSearchQuery url (A.parseUrl url)
          match A.search (fallbackSearchPayload searchQuery) with
          | .ok searchResult =>
            (fallbackLogs url searchQuery,
             .ok ("[Fallback from browser to search]\n\n" ++ searchResult))
          | .error e => (fallbackLogs url searchQuery, .error e)
      else if tool = "search" then ([], A.search payload)
      else if tool = "leetcode" then ([], A.leetcode payload)
      else if tool = "mcp_registry" then ([], A.mcpRegistry payload)
      else if tool = "utility" then ([], A.utility payload)
      else ([], .error ("Unknown tool: " ++ tool))

/-- Embedding of `transformResultForNext` from `dispatcher.ts`: the transform table keyed by
`(fromTool, toTool)`.  The emoji regex of the source removes five single emoji
characters (the repository file stores them in cp1252-mojibake form; they
decode to the five glyphs below), which for single distinct characters equals
filtering them out; `/\*\*/g` removal and `substring(0, 10000)` follow in the
source's order. -/
def transformResultForNext (result : String) (fromTool toTool : String) : String :=
  if (fromTool = "search" ∨ fromTool = "browser") ∧ toTool = "filesystem" then
    jsSubstringTo (jsRemoveAll ⟨result.data.filter
      (fun c => !(['🔍', '🌐', '📋', '📄', '🔗'].contains c))⟩ "**") 10000
  else if (fromTool = "search" ∨ fromTool = "browser") ∧ toTool = "slack" then
    joinLines (((splitLines result).filter (fun l => jsTrim l ≠ "")).take 10)
  else
    result

/-- Embedding of `ChainedToolResult` from `dispatcher.ts`. -/
structure ChainedToolResult where
  success : Bool
  tool : String
  result : String
  fallbackUsed : Option String
  transformedForNext : Option String
deriving DecidableEq, Repr

/-- JS truthiness of an optional string (absent and empty are falsy). -/
def optTruthy : Option String → Bool
  | some s => s ≠ ""
  | none => false

/-- The payload `dispatchToolWithChaining` dispatches: when `previousResult` is
(truthy and) present it is spread into the payload under the reserved
`previousContext` key. -/
def enrichedPayload (payload : Payload) (previousResult : Option String) : Payload :=
  if optTruthy previousResult then
    spreadOver payload [("previousContext", .str (previousResult.getD ""))]
  else
    payload

/-- Embedding of `dispatchToolWithChaining` from `dispatcher.ts`. -/
def dispatchToolWithChaining (env : EnvFlags) (customTools : List CustomToolConfig)
    (A : Adapters) (tool : String) (payload : Payload)
    (previousResult : Option String) (nextTool : Option String) :
    List String × ChainedToolResult :=
  match dispatchTool env customTools A tool (enrichedPayload payload previousResult) with
  | (logs, .ok result) =>
    let fallbackUsed := if jsStartsWith result "[Fallback" then some "search" else none
    let transformedForNext :=
      if optTruthy nextTool && !(result == "") then
        some (transformResultForNext result tool (nextTool.getD ""))
      else
        none
    (logs, ⟨true, tool, result, fallbackUsed, transformedForNext⟩)
  | (logs, .error e) => (logs, ⟨false, tool, e, none, none⟩)

/-! ### The streaming execute endpoint (`/api/stream-execute`, `index.ts`) -/

/-- The SSE events the streaming execute endpoint emits. -/
inductive SSEEvent where
  | start (taskId tool : String)
  | log (message : String)
  | toolResult (rawResult : String)
  | summaryChunk (content : String)
  | done (result : String)
  | error (message : String)
deriving DecidableEq, Repr

/-- Event-class predicates. -/
def isStart : SSEEvent → Bool
  | .start _ _ => true
  | _ => false

def isLogEvent : SSEEvent → Bool
  | .log _ => true
  | _ => false

def isToolResult : SSEEvent → Bool
  | .toolResult _ => true
  | _ => false

def isChunk : SSEEvent → Bool
  | .summaryChunk _ => true
  | _ => false

def isDone : SSEEvent → Bool
  | .done _ => true
  | _ => false

def isErrorEvent : SSEEvent → Bool
  | .error _ => true
  | _ => false

/-- Terminal events: `done` or `error`. -/
def isTerminal (e : SSEEvent) : Bool := isDone e || isErrorEvent e

/-- Behaviour of one run of the external summarizer token stream
(`streamSummarizeToolResult`): either it completes after yielding the listed
chunk contents, or it throws after yielding the listed chunk contents
(throwing before the first chunk is `failed []`). -/
inductive SummarizerRun where
  | ok (chunks : List String)
  | failed (chunksBefore : List String)

/-- The `summary_chunk` events a chunk list produces: the handler skips empty
contents (`if (content)`). -/
def chunkEvents (chunks : List String) : List SSEEvent :=
  (chunks.filter (fun c => c ≠ "")).map SSEEvent.summaryChunk

/-- Accumulator `fullSummary`: the concatenation of the (non-empty) streamed contents. -/
def joinedSummary (chunks : List String) : String :=
  String.join (chunks.filter (fun c => c ≠ ""))

/-- The event sequence one task execution emits through the
`/api/stream-execute` handler after parameter validation succeeded
(`index.ts` lines 155-194).  `dispatchLogs` are the lines the dispatch pushes
through `onLog` (relayed as `log` events, all during the awaited dispatch),
`dispatchOutcome` is the result of `await dispatchTool(...)`, and `summarizer`
is the behaviour of the summarizer stream. -/
def streamExecuteEvents (taskId tool : String) (dispatchLogs : List String)
    (dispatchOutcome : Except String String) (summarizer : SummarizerRun) :
    List SSEEvent :=
  SSEEvent.start taskId tool ::
    dispatchLogs.map SSEEvent.log ++
      match dispatchOutcome with
      | .error e => [SSEEvent.error e]
      | .ok rawResult =>
        SSEEvent.toolResult rawResult ::
          match summarizer with
          | .ok chunks => chunkEvents chunks ++ [SSEEvent.done (joinedSummary chunks)]
          | .failed before => chunkEvents before ++
              [SSEEvent.summaryChunk rawResult, SSEEvent.done rawResult]

/-- The full handler including parameter validation (`index.ts` lines
134-153): missing query parameters or unparsable payload JSON emit a single
`error` event and end the stream before any execution starts. -/
def streamExecuteHandler (taskId tool payloadStr : Option String)
    (payloadParses : Bool) (dispatchLogs : List String)
    (dispatchOutcome : Except String String) (summarizer : SummarizerRun) :
    List SSEEvent :=
  if !optTruthy taskId || !optTruthy tool || !optTruthy payloadStr then
    [SSEEvent.error "Missing required parameters"]
  else if !payloadParses then
    [SSEEvent.error "Invalid payload JSON"]
  else
    streamExecuteEvents (taskId.getD "") (tool.getD "") dispatchLogs dispatchOutcome summarizer

/-! ### The client-side sequential executor (`src/client/src/App.tsx`) -/

/-- Task lifecycle status (`TaskStatus` in `src/client/src/lib/types.ts`). -/
inductive TaskStatus where
  | pending
  | approved
  | executing
  | success
  | failed
deriving DecidableEq, Repr

/-- Embedding of `Task` from `src/client/src/lib/types.ts`; `result`, `error` and `logs`
are optional fields.  `confidence` is the planner's number in [0,1]. -/
structure Task where
  id : String
  description : String
  tool : String
  payload : Payload
  confidence : ℚ
  status : TaskStatus
  result : Option String
  error : Option String
  logs : Option (List String)
deriving DecidableEq, Repr

/-- One step of the SSE callback in `executeTaskInternal` (`App.tsx` lines
211-256): how the stored task reacts to each incoming event. -/
def applyClientEvent (t : Task) (e : SSEEvent) : Task :=
  match e with
  | .start _ _ => t
  | .log m => { t with logs := some ((t.logs.getD []) ++ [m]) }
  | .toolResult _ => t
  | .summaryChunk c => { t with result := some ((t.result.getD "") ++ c) }
  | .done _ => { t with status := .success }
  | .error m => { t with status := .failed, error := some m }

/-- Embedding of `executeTaskInternal` (`App.tsx` lines 200-259): the task is first set to
`executing` with `result` reset to the empty string, then every event of the
SSE stream is applied in arrival order.  Returns the final stored task. -/
def executeTaskInternal (t : Task) (events : List SSEEvent) : Task :=
  events.foldl applyClientEvent { t with status := .executing, result := some "" }

/-- The settlement of the promise `executeTaskInternal` returns: the first
terminal event decides — `done` resolves, `error` rejects with the message. -/
def taskPromiseOutcome (events : List SSEEvent) : Except String Unit :=
  match events.find? isTerminal with
  | some (.error m) => .error m
  | _ => .ok ()

/-- Embedding of `executeTasksSequentially` (`App.tsx` lines 261-276): the for-loop awaits
each task's promise in list order; its `try/catch` only logs a rejection to
the console, so the loop continues to the next task unconditionally.  The
per-task event stream is determined by the request sent for that task. -/
def executeTasksSequentially (streamOf : Task → List SSEEvent) :
    List Task → List Task
  | [] => []
  | t :: rest =>
    let t' := executeTaskInternal t (streamOf t)
    let _promise := taskPromiseOutcome (streamOf t)
    t' :: executeTasksSequentially streamOf rest

/-! ## Theorems -/

/-! ### C10 — `updateStage` and the `endTime` invariant -/

/-- C10: every `PipelineContext` returned by `updateStage` has `endTime`
defined iff the new stage is `complete` or `failed`; updating to a
non-terminal stage erases a previously recorded `endTime`; all fields other
than `stage`, `progress` and `endTime` are carried over unchanged. -/
theorem updateStage_endTime_iff (c : PipelineContext) (s : PipelineStage)
    (p now : Nat) :
    ((updateStage c s p now).endTime.isSome = true ↔ (s = .complete ∨ s = .failed))
    ∧ (¬(s = .complete ∨ s = .failed) → (updateStage c s p now).endTime = none)
    ∧ (updateStage c s p now).stage = s
    ∧ (updateStage c s p now).progress = p
    ∧ (updateStage c s p now).originalQuery = c.originalQuery
    ∧ (updateStage c s p now).intent = c.intent
    ∧ (updateStage c s p now).decomposedQueries = c.decomposedQueries
    ∧ (updateStage c s p now).selectedTool = c.selectedTool
    ∧ (updateStage c s p now).taskResults = c.taskResults
    ∧ (updateStage c s p now).finalAnswer = c.finalAnswer
    ∧ (updateStage c s p now).citations = c.citations
    ∧ (updateStage c s p now).startTime = c.startTime := by
  refine ⟨?_, ?_, rfl, rfl, rfl, rfl, rfl, rfl, rfl, rfl, rfl, rfl⟩
  · by_cases h : s = .complete ∨ s = .failed <;> simp [updateStage, h]
  · intro h
    simp [updateStage, h]

/-- Concrete pipeline context used by the C10 witness. -/
def sampleContext : PipelineContext :=
  ⟨"q", .general, ["q"], "", [], "", [], .summarizing, 80, 5, some 7⟩

/-- Witness for C10: updating a context that already has an `endTime` to the
non-terminal `executing` stage erases the `endTime`, while updating to
`complete` sets it. -/
theorem updateStage_endTime_iff_witness :
    (updateStage sampleContext .executing 50 99).endTime = none
    ∧ (updateStage sampleContext .complete 100 99).endTime.isSome = true := by
  constructor
  · exact (updateStage_endTime_iff sampleContext .executing 50 99).2.1 (by decide)
  · exact ((updateStage_endTime_iff sampleContext .complete 100 99).1).mpr (Or.inl rfl)

/-! ### C7 — intent classification -/

/-- C7: `detectIntent` is a total function applying its keyword rules in
order; since the comparison rule is the first one, every query containing
both "compare" and " vs " classifies as `comparison` (never `factual`), and
the query "what is X" classifies as `factual`. -/
theorem detectIntent_comparison_and_factual :
    (∀ q : String, "compare".data <:+: q.data → " vs ".data <:+: q.data →
      detectIntent q = .comparison)
    ∧ detectIntent "what is X" = .factual := by
  constructor
  · intro q _hc hv
    have hmap : (" vs ").data.map lowerChar <:+: q.data.map lowerChar :=
      hv.map lowerChar
    have hlower : (" vs ").data.map lowerChar = [' ', 'v', 's', ' '] := by decide
    have hincl : jsIncludes (jsToLower q) " vs " = true := by
      simp only [jsIncludes, jsToLower, decide_eq_true_eq]
      exact hlower ▸ hmap
    unfold detectIntent
    simp [hincl]
  · decide

/-- Witness for C7: the concrete query "compare X vs Y" classifies as
`comparison`. -/
theorem detectIntent_comparison_and_factual_witness :
    detectIntent "compare X vs Y" = .comparison :=
  detectIntent_comparison_and_factual.1 "compare X vs Y" (by decide) (by decide)

/-! ### C9 — custom tools shadow built-ins at dispatch time -/

/-- C9: whenever the tool name resolves in the loaded custom-tools list,
`dispatchTool` runs the custom adapter — whatever the enabled flags of the
built-in registry say for that name.  The right-hand side does not mention
the built-in adapters or their enabled flags at all. -/
theorem customTool_shadows_builtin (env : EnvFlags)
    (customTools : List CustomToolConfig) (A : Adapters) (tool : String)
    (payload : Payload) (cfg : CustomToolConfig)
    (h : customTools.find? (fun t => t.name = tool) = some cfg) :
    dispatchTool env customTools A tool payload
      = ([], A.custom (spreadOver [("toolName", .str tool)] payload) cfg) := by
  simp [dispatchTool, h]

/-- Stub adapter collaborators used by witnesses. -/
def stubAdapters : Adapters :=
  ⟨fun _ => .ok "fs", fun _ => .ok "gh", fun _ => .ok "sl", fun _ => .ok "cal",
   fun _ => .ok "term", fun _ => .ok "br", fun _ => .ok "se", fun _ => .ok "lc",
   fun _ => .ok "reg", fun _ => .ok "ut",
   fun _ cfg => .ok ("custom:" ++ cfg.name), fun _ => none⟩

/-- Environment with every built-in tool enabled. -/
def allEnabled : EnvFlags := ⟨true, true, true, true, true, true, true, true, true⟩

/-- A custom tool whose name collides with the enabled built-in `search`. -/
def searchShadow : CustomToolConfig :=
  ⟨"search", "user-defined search", "command", some "echo hi", none, none⟩

/-- Witness for C9: with the built-in `search` enabled and a custom tool of
the same name loaded, dispatch runs the custom adapter. -/
theorem customTool_shadows_builtin_witness :
    dispatchTool allEnabled [searchShadow] stubAdapters "search" []
      = ([], .ok "custom:search") := by
  have h := customTool_shadows_builtin allEnabled [searchShadow] stubAdapters
    "search" [] searchShadow (by decide)
  exact h.trans (by decide)

/-! ### C4 — `dispatchToolWithChaining` never throws -/

/-- Lookup of a key that object spread just wrote always yields the spread
value (the later-wins semantics of `{ ...payload, previousContext: prev }`). -/
theorem getProp_spreadOver_single (base : Payload) (k : String) (v : JsVal) :
    getProp (spreadOver base [(k, v)]) k = some v := by
  have hnone : (base.filter (fun kv =>
      (([(k, v)] : Payload).find? (fun kv2 => kv2.1 = kv.1)).isNone)).find?
        (fun kv => kv.1 = k) = none := by
    rw [List.find?_eq_none]
    intro kv hmem hk
    have hpred := (List.mem_filter.mp hmem).2
    have hkk : kv.1 = k := by simpa using hk
    rw [hkk] at hpred
    simp [List.find?] at hpred
  unfold getProp spreadOver
  rw [List.find?_append, hnone]
  simp [List.find?]

/-- C4: `dispatchToolWithChaining` is total on dispatch failure — a thrown
dispatch becomes `{success := false, tool, result := error message}` with no
optional fields — and on success returns `{success := true, tool, result}`
with the optional `fallbackUsed`/`transformedForNext` fields; a (truthy)
`previousResult` is merged into the dispatched payload under the reserved
`previousContext` key. -/
theorem dispatchToolWithChaining_never_throws (env : EnvFlags)
    (customTools : List CustomToolConfig) (A : Adapters) (tool : String)
    (payload : Payload) (previousResult nextTool : Option String) :
    (∀ logs e,
      dispatchTool env customTools A tool (enrichedPayload payload previousResult)
          = (logs, .error e) →
      dispatchToolWithChaining env customTools A tool payload previousResult nextTool
          = (logs, ⟨false, tool, e, none, none⟩))
    ∧ (∀ logs v,
      dispatchTool env customTools A tool (enrichedPayload payload previousResult)
          = (logs, .ok v) →
      dispatchToolWithChaining env customTools A tool payload previousResult nextTool
          = (logs, ⟨true, tool, v,
              if jsStartsWith v "[Fallback" then some "search" else none,
              if optTruthy nextTool && !(v == "") then
                some (transformResultForNext v tool (nextTool.getD ""))
              else none⟩))
    ∧ (∀ prevVal : String, prevVal ≠ "" →
      getProp (enrichedPayload payload (some prevVal)) "previousContext"
          = some (.str prevVal)) := by
  refine ⟨?_, ?_, ?_⟩
  · intro logs e h
    simp [dispatchToolWithChaining, h]
  · intro logs v h
    simp [dispatchToolWithChaining, h]
  · intro prevVal hne
    have ht : optTruthy (some prevVal) = true := by
      simp [optTruthy, hne]
    simp only [enrichedPayload, ht, if_pos, Option.getD_some]
    exact getProp_spreadOver_single payload "previousContext" (.str prevVal)

/-- Adapters whose `utility` tool throws; used by the C4 witness. -/
def failingUtilityAdapters : Adapters :=
  ⟨fun _ => .ok "fs", fun _ => .ok "gh", fun _ => .ok "sl", fun _ => .ok "cal",
   fun _ => .ok "term", fun _ => .ok "br", fun _ => .ok "se", fun _ => .ok "lc",
   fun _ => .ok "reg", fun _ => .error "utility down",
   fun _ cfg => .ok cfg.name, fun _ => none⟩

/-- Witness for C4: a throwing adapter is reported as a failed chained result
carrying the error message, and a previous result lands under
`previousContext`. -/
theorem dispatchToolWithChaining_never_throws_witness :
    dispatchToolWithChaining allEnabled [] failingUtilityAdapters "utility" []
        (some "earlier output") none
      = ([], ⟨false, "utility", "utility down", none, none⟩)
    ∧ getProp (enrichedPayload [] (some "earlier output")) "previousContext"
      = some (.str "earlier output") := by
  constructor
  · exact (dispatchToolWithChaining_never_throws allEnabled [] failingUtilityAdapters
      "utility" [] (some "earlier output") none).1 [] "utility down" (by decide)
  · exact (dispatchToolWithChaining_never_throws allEnabled [] failingUtilityAdapters
      "utility" [] (some "earlier output") none).2.2 "earlier output" (by decide)

/-! ### C3 — browser fallback to search (corrected) -/

/-- The plain adapter call behind each built-in tool name, with no fallback
attached (what the `switch` in `dispatchTool` does outside the `browser`
case). -/
def builtinOutcome (A : Adapters) (tool : String) (payload : Payload) :
    Except String String :=
  if tool = "filesystem" then A.filesystem payload
  else if tool = "github" then A.github payload
  else if tool = "slack" then A.slack payload
  else if tool = "calendar" then A.calendar payload
  else if tool = "terminal" then A.terminal payload
  else if tool = "browser" then A.browser payload
  else if tool = "search" then A.search payload
  else if tool = "leetcode" then A.leetcode payload
  else if tool = "mcp_registry" then A.mcpRegistry payload
  else if tool = "utility" then A.utility payload
  else .error ("Unknown tool: " ++ tool)

/-- Spec-side description of the derived fallback query, for comparison: the
hostname plus the path tokens, whitespace-collapsed (every token separated by
a single space). -/
def claimedSearchQuery (host path : String) : String :=
  ⟨joinWithSep ' '
    (host.data :: ((splitOnCharL '/' path.data).filter (fun t => t ≠ [])))⟩

/-- C3 counterexample: the derived query is NOT whitespace-collapsed.  For the
URL `https://example.com/a/b` (hostname `example.com`, pathname `/a/b`) the
code builds `"example.com" + " " + " a b"` and only end-trims, leaving a
double space, while the claim's collapsed form has single spaces. -/
theorem deriveSearchQuery_not_collapsed :
    deriveSearchQuery "https://example.com/a/b" (some ("example.com", "/a/b"))
        = "example.com  a b"
    ∧ claimedSearchQuery "example.com" "/a/b" = "example.com a b"
    ∧ deriveSearchQuery "https://example.com/a/b" (some ("example.com", "/a/b"))
        ≠ claimedSearchQuery "example.com" "/a/b" := by
  refine ⟨by decide, by decide, by decide⟩

/-- C3 (amended): if the browser adapter fails, the dispatcher derives a
search query from the URL — the hostname, a space, and the pathname with each
slash replaced by a space, end-trimmed (internal whitespace not collapsed) —
re-dispatches to the search tool with `limit 5` and `deepFetch true`, and
returns the search result behind the fallback marker; a failure of the
fallback search propagates unchanged; and every tool other than `browser`
dispatches to its adapter with no fallback, so its failures propagate
unchanged. -/
theorem browser_fallback_behavior (env : EnvFlags)
    (customTools : List CustomToolConfig) (A : Adapters) (payload : Payload)
    (henv : env.enableBrowser = true)
    (hcustom : customTools.find? (fun t => t.name = "browser") = none)
    (hfail : ∃ msg, A.browser payload = .error msg) :
    (∀ s, A.search (fallbackSearchPayload (deriveSearchQuery
          (jsValToString (getProp payload "url"))
          (A.parseUrl (jsValToString (getProp payload "url"))))) = .ok s →
      dispatchTool env customTools A "browser" payload
        = (fallbackLogs (jsValToString (getProp payload "url"))
             (deriveSearchQuery (jsValToString (getProp payload "url"))
               (A.parseUrl (jsValToString (getProp payload "url")))),
           .ok ("[Fallback from browser to search]\n\n" ++ s)))
    ∧ (∀ e, A.search (fallbackSearchPayload (deriveSearchQuery
          (jsValToString (getProp payload "url"))
          (A.parseUrl (jsValToString (getProp payload "url"))))) = .error e →
      dispatchTool env customTools A "browser" payload
        = (fallbackLogs (jsValToString (getProp payload "url"))
             (deriveSearchQuery (jsValToString (getProp payload "url"))
               (A.parseUrl (jsValToString (getProp payload "url")))),
           .error e))
    ∧ (∀ host path,
      A.parseUrl (jsValToString (getProp payload "url")) = some (host, path) →
      deriveSearchQuery (jsValToString (getProp payload "url"))
          (A.parseUrl (jsValToString (getProp payload "url")))
        = jsTrim (host ++ " " ++ slashesToSpaces path))
    ∧ (∀ tool payload2, tool ≠ "browser" →
      customTools.find? (fun t => t.name = tool) = none →
      builtinEnabled ((TOOL_DEFINITIONS env).find? (fun t => t.name = tool)) = true →
      dispatchTool env customTools A tool payload2
        = ([], builtinOutcome A tool payload2)) := by
  obtain ⟨msg, hmsg⟩ := hfail
  have hb : builtinEnabled ((TOOL_DEFINITIONS env).find?
      (fun t => t.name = "browser")) = true := by
    simp [TOOL_DEFINITIONS, List.find?, builtinEnabled, henv]
  refine ⟨?_, ?_, ?_, ?_⟩
  · intro s hs
    simp [dispatchTool, hcustom, hb, hmsg, hs]
  · intro e he
    simp [dispatchTool, hcustom, hb, hmsg, he]
  · intro host path hp
    rw [hp]
    rfl
  · intro tool payload2 hne hc he
    simp only [dispatchTool, builtinOutcome, hc, he, Bool.not_true,
      Option.isNone_none, Bool.false_and, Bool.false_eq_true, if_false]
    by_cases h1 : tool = "filesystem"
    · simp [h1]
    by_cases h2 : tool = "github"
    · simp [h1, h2]
    by_cases h3 : tool = "slack"
    · simp [h1, h2, h3]
    by_cases h4 : tool = "calendar"
    · simp [h1, h2, h3, h4]
    by_cases h5 : tool = "terminal"
    · simp [h1, h2, h3, h4, h5]
    by_cases h7 : tool = "search"
    · simp [h1, h2, h3, h4, h5, hne, h7]
    by_cases h8 : tool = "leetcode"
    · simp [h1, h2, h3, h4, h5, hne, h7, h8]
    by_cases h9 : tool = "mcp_registry"
    · simp [h1, h2, h3, h4, h5, hne, h7, h8, h9]
    by_cases h10 : tool = "utility"
    · simp [h1, h2, h3, h4, h5, hne, h7, h8, h9, h10]
    simp [h1, h2, h3, h4, h5, hne, h7, h8, h9, h10]

/-- Adapters whose browser throws and whose search echoes the query it was
given; URL parsing resolves `https://example.com/a/b`.  Used by the C3
witness. -/
def fallbackAdapters : Adapters :=
  ⟨fun _ => .ok "fs", fun _ => .ok "gh", fun _ => .ok "sl", fun _ => .ok "cal",
   fun _ => .ok "term", fun _ => .error "ECONNREFUSED",
   fun p => .ok ("got " ++ jsValToString (getProp p "query")),
   fun _ => .ok "lc", fun _ => .ok "reg", fun _ => .ok "ut",
   fun _ cfg => .ok cfg.name,
   fun u => if u = "https://example.com/a/b" then some ("example.com", "/a/b") else none⟩

/-- Witness for C3 (amended): a failing browser fetch of
`https://example.com/a/b` is answered by the search adapter on the derived
query (with its double space) behind the fallback marker, with the two
dispatcher log lines emitted. -/
theorem browser_fallback_behavior_witness :
    dispatchTool allEnabled [] fallbackAdapters "browser"
        [("url", .str "https://example.com/a/b")]
      = (fallbackLogs "https://example.com/a/b" "example.com  a b",
         .ok "[Fallback from browser to search]\n\ngot example.com  a b") := by
  have h := (browser_fallback_behavior allEnabled [] fallbackAdapters
      [("url", .str "https://example.com/a/b")] rfl rfl
      ⟨"ECONNREFUSED", rfl⟩).1 "got example.com  a b" (by decide)
  exact h.trans (by decide)

/-! ### C5 — the chaining transform table -/

/-- The function `splitOnCharL` never returns the empty list. -/
theorem splitOnCharL_ne_nil (sep : Char) (l : List Char) :
    splitOnCharL sep l ≠ [] := by
  induction l with
  | nil => simp [splitOnCharL]
  | cons c cs ih =>
    unfold splitOnCharL
    rcases h : splitOnCharL sep cs with _ | ⟨piece, rest⟩
    · simp
    · by_cases hc : c = sep <;> simp [hc]

/-- No piece produced by `splitOnCharL` contains the separator. -/
theorem splitOnCharL_no_sep (sep : Char) (l : List Char) :
    ∀ piece ∈ splitOnCharL sep l, sep ∉ piece := by
  induction l with
  | nil => simp [splitOnCharL]
  | cons c cs ih =>
    intro pc hpc
    unfold splitOnCharL at hpc
    rcases h : splitOnCharL sep cs with _ | ⟨piece, rest⟩
    · exact absurd h (splitOnCharL_ne_nil sep cs)
    · rw [h] at hpc
      have hpm : piece ∈ splitOnCharL sep cs := by
        rw [h]
        exact List.mem_cons_self piece rest
      by_cases hc : c = sep
      · simp only [if_pos hc] at hpc
        rcases List.mem_cons.mp hpc with h1 | h1
        · simp [h1]
        · exact ih pc (h ▸ h1)
      · simp only [if_neg hc] at hpc
        rcases List.mem_cons.mp hpc with h1 | h1
        · subst h1
          intro hmem
          rcases List.mem_cons.mp hmem with h2 | h2
          · exact hc h2.symm
          · exact ih piece hpm h2
        · exact ih pc (h ▸ List.mem_cons.mpr (Or.inr h1))

/-- A separator-free list splits to itself. -/
theorem splitOnCharL_of_no_sep (sep : Char) (l : List Char) (h : sep ∉ l) :
    splitOnCharL sep l = [l] := by
  induction l with
  | nil => rfl
  | cons c cs ih =>
    have hc : ¬ c = sep := fun hcc => h (by simp [hcc])
    have hcs : sep ∉ cs := fun hmem => h (List.mem_cons.mpr (Or.inr hmem))
    unfold splitOnCharL
    rw [ih hcs]
    simp [hc]

/-- Splitting `a ++ sep :: b` with separator-free `a` peels off `a`. -/
theorem splitOnCharL_append_sep (sep : Char) (a b : List Char) (h : sep ∉ a) :
    splitOnCharL sep (a ++ sep :: b) = a :: splitOnCharL sep b := by
  induction a with
  | nil =>
    rw [List.nil_append]
    conv_lhs => rw [splitOnCharL]
    rcases hb : splitOnCharL sep b with _ | ⟨piece, rest⟩
    · exact absurd hb (splitOnCharL_ne_nil sep b)
    · simp
  | cons c cs ih =>
    have hc : ¬ c = sep := fun hcc => h (by simp [hcc])
    have hcs : sep ∉ cs := fun hmem => h (List.mem_cons.mpr (Or.inr hmem))
    rw [List.cons_append]
    conv_lhs => rw [splitOnCharL]
    rw [ih hcs]
    simp [hc]

/-- The function `splitOnCharL` inverts `joinWithSep` on a non-empty separator-free list of
pieces. -/
theorem splitOnCharL_joinWithSep (sep : Char) (L : List (List Char))
    (hne : L ≠ []) (h : ∀ piece ∈ L, sep ∉ piece) :
    splitOnCharL sep (joinWithSep sep L) = L := by
  induction L with
  | nil => exact absurd rfl hne
  | cons piece rest ih =>
    rcases rest with _ | ⟨piece2, rest2⟩
    · exact splitOnCharL_of_no_sep sep piece (h piece (by simp))
    · rw [show joinWithSep sep (piece :: piece2 :: rest2)
          = piece ++ sep :: joinWithSep sep (piece2 :: rest2) from rfl]
      rw [splitOnCharL_append_sep sep _ _ (h piece (by simp))]
      rw [ih (by simp) (fun pc hpc => h pc (List.mem_cons.mpr (Or.inr hpc)))]

/-- Every line `splitLines` returns is newline-free. -/
theorem mem_splitLines_no_newline (s : String) :
    ∀ l ∈ splitLines s, '\n' ∉ l.data := by
  intro l hl
  obtain ⟨piece, hp, rfl⟩ := List.mem_map.mp hl
  exact fun hmem => splitOnCharL_no_sep '\n' s.data piece hp hmem

/-- The function `splitLines` inverts `joinLines` on a non-empty list of newline-free
lines. -/
theorem splitLines_joinLines (ls : List String) (hne : ls ≠ [])
    (h : ∀ l ∈ ls, '\n' ∉ l.data) :
    splitLines (joinLines ls) = ls := by
  unfold splitLines joinLines
  rw [splitOnCharL_joinWithSep '\n' (ls.map String.data)
    (by simpa using hne)
    (by
      intro piece hp
      obtain ⟨l, hl, rfl⟩ := List.mem_map.mp hp
      exact h l hl)]
  rw [List.map_map]
  have hid : ((fun l => (⟨l⟩ : String)) ∘ String.data) = id := rfl
  rw [hid, List.map_id]

/-- C5: the chaining transform table — search/browser into filesystem strips
the emoji glyphs and markdown bold markers and truncates to at most 10000
characters; search/browser into slack keeps only the first 10 non-blank
lines; every other pair is the identity. -/
theorem transformResultForNext_table (r ft tt : String) :
    ((ft = "search" ∨ ft = "browser") →
      transformResultForNext r ft "filesystem"
          = jsSubstringTo (jsRemoveAll ⟨r.data.filter
              (fun c => !(['🔍', '🌐', '📋', '📄', '🔗'].contains c))⟩ "**") 10000
        ∧ (transformResultForNext r ft "filesystem").length ≤ 10000)
    ∧ ((ft = "search" ∨ ft = "browser") →
      transformResultForNext r ft "slack"
          = joinLines (((splitLines r).filter (fun l => jsTrim l ≠ "")).take 10)
        ∧ ((splitLines (transformResultForNext r ft "slack")).filter
            (fun l => jsTrim l ≠ "")).length ≤ 10)
    ∧ (¬((ft = "search" ∨ ft = "browser") ∧ (tt = "filesystem" ∨ tt = "slack")) →
      transformResultForNext r ft tt = r) := by
  refine ⟨?_, ?_, ?_⟩
  · intro hft
    have heq : transformResultForNext r ft "filesystem"
        = jsSubstringTo (jsRemoveAll ⟨r.data.filter
            (fun c => !(['🔍', '🌐', '📋', '📄', '🔗'].contains c))⟩ "**") 10000 := by
      unfold transformResultForNext
      rw [if_pos ⟨hft, rfl⟩]
    refine ⟨heq, ?_⟩
    rw [heq]
    show ((jsRemoveAll _ "**").data.take 10000).length ≤ 10000
    exact List.length_take_le _ _
  · intro hft
    have heq : transformResultForNext r ft "slack"
        = joinLines (((splitLines r).filter (fun l => jsTrim l ≠ "")).take 10) := by
      unfold transformResultForNext
      rw [if_neg (fun hcon => by
        rcases hcon with ⟨_, hfs⟩
        exact absurd hfs (by decide))]
      rw [if_pos ⟨hft, rfl⟩]
    refine ⟨heq, ?_⟩
    rw [heq]
    set T := ((splitLines r).filter (fun l => jsTrim l ≠ "")).take 10 with hTdef
    rcases hT : T with _ | ⟨t0, ts⟩
    · decide
    · rw [← hT]
      have hnn : ∀ l ∈ T, '\n' ∉ l.data := by
        intro l hl
        exact mem_splitLines_no_newline r l
          (List.mem_of_mem_filter (List.mem_of_mem_take (hTdef ▸ hl)))
      have hnb : ∀ l ∈ T, jsTrim l ≠ "" := by
        intro l hl
        have := (List.mem_filter.mp (List.mem_of_mem_take (hTdef ▸ hl))).2
        simpa using this
      rw [splitLines_joinLines T (by rw [hT]; simp) hnn]
      rw [List.filter_eq_self.mpr (fun a ha => by simpa using hnb a ha)]
      rw [hTdef]
      exact List.length_take_le _ _
  · intro h
    unfold transformResultForNext
    rw [if_neg (fun hcon => h ⟨hcon.1, Or.inl hcon.2⟩)]
    rw [if_neg (fun hcon => h ⟨hcon.1, Or.inr hcon.2⟩)]

/-- Witness for C5: concrete transforms — a browser result piped into
filesystem loses its bold markers and emoji, search piped into slack keeps
the first 10 non-blank lines, and a github-to-slack pair is untouched. -/
theorem transformResultForNext_table_witness :
    transformResultForNext "**Title** 🔍 done" "browser" "filesystem" = "Title  done"
    ∧ transformResultForNext "a\n\nb\nc\nd\ne\nf\ng\nh\ni\nj\nk" "search" "slack"
        = "a\nb\nc\nd\ne\nf\ng\nh\ni\nj"
    ∧ transformResultForNext "raw **text**" "github" "slack" = "raw **text**" := by
  refine ⟨?_, ?_, ?_⟩
  · have h := ((transformResultForNext_table "**Title** 🔍 done" "browser" "filesystem").1
      (Or.inr rfl)).1
    exact h.trans (by decide)
  · have h := ((transformResultForNext_table "a\n\nb\nc\nd\ne\nf\ng\nh\ni\nj\nk" "search"
      "slack").2.1 (Or.inl rfl)).1
    exact h.trans (by decide)
  · exact (transformResultForNext_table "raw **text**" "github" "slack").2.2 (by decide)

/-! ### C1 — per-task SSE event protocol -/

/-- Filtering a mapped list by a predicate that is false on the image yields
nothing. -/
theorem filter_map_eq_nil {α : Type} (f : α → SSEEvent) (p : SSEEvent → Bool)
    (h : ∀ a, p (f a) = false) (l : List α) : (l.map f).filter p = [] := by
  induction l with
  | nil => rfl
  | cons a t ih => simp [List.filter_cons, h, ih]

theorem filter_isTerminal_log_map (dlogs : List String) :
    (dlogs.map SSEEvent.log).filter isTerminal = [] :=
  filter_map_eq_nil _ _ (fun _ => rfl) dlogs

theorem filter_isTerminal_chunkEvents (cs : List String) :
    (chunkEvents cs).filter isTerminal = [] :=
  filter_map_eq_nil _ _ (fun _ => rfl) _

theorem filter_isToolResult_log_map (dlogs : List String) :
    (dlogs.map SSEEvent.log).filter isToolResult = [] :=
  filter_map_eq_nil _ _ (fun _ => rfl) dlogs

theorem filter_isToolResult_chunkEvents (cs : List String) :
    (chunkEvents cs).filter isToolResult = [] :=
  filter_map_eq_nil _ _ (fun _ => rfl) _

theorem filter_isDone_log_map (dlogs : List String) :
    (dlogs.map SSEEvent.log).filter isDone = [] :=
  filter_map_eq_nil _ _ (fun _ => rfl) dlogs

theorem filter_isDone_chunkEvents (cs : List String) :
    (chunkEvents cs).filter isDone = [] :=
  filter_map_eq_nil _ _ (fun _ => rfl) _

theorem filter_isChunk_log_map (dlogs : List String) :
    (dlogs.map SSEEvent.log).filter isChunk = [] :=
  filter_map_eq_nil _ _ (fun _ => rfl) dlogs

/-- Every event of `chunkEvents` is a `summary_chunk`. -/
theorem mem_chunkEvents_exists {e : SSEEvent} {cs : List String}
    (h : e ∈ chunkEvents cs) : ∃ c, e = SSEEvent.summaryChunk c := by
  obtain ⟨c, _, rfl⟩ := List.mem_map.mp h
  exact ⟨c, rfl⟩

/-- C1: within one task execution of the streaming endpoint, `start` is the
first event; exactly one terminal event (`done` xor `error`) is emitted and
it is the last event; when dispatch succeeds there is exactly one
`tool_result`, nothing before it is a `summary_chunk`, `tool_result` or
terminal event, and nothing after it is another `tool_result`; when dispatch
throws, no `tool_result` is emitted and the last event is `error` carrying
the thrown message. -/
theorem stream_execute_event_protocol (taskId tool : String)
    (dlogs : List String) (outcome : Except String String) (s : SummarizerRun) :
    (streamExecuteEvents taskId tool dlogs outcome s).head?
        = some (.start taskId tool)
    ∧ ((streamExecuteEvents taskId tool dlogs outcome s).filter isTerminal).length = 1
    ∧ (∃ t, (streamExecuteEvents taskId tool dlogs outcome s).getLast? = some t
        ∧ isTerminal t = true)
    ∧ (∀ raw, outcome = .ok raw →
      ((streamExecuteEvents taskId tool dlogs outcome s).filter isToolResult).length = 1
      ∧ ∃ pre post,
          streamExecuteEvents taskId tool dlogs outcome s
            = pre ++ SSEEvent.toolResult raw :: post
          ∧ (∀ e ∈ pre, isChunk e = false ∧ isToolResult e = false ∧ isTerminal e = false)
          ∧ (∀ e ∈ post, isToolResult e = false))
    ∧ (∀ msg, outcome = .error msg →
      ((streamExecuteEvents taskId tool dlogs outcome s).filter isToolResult).length = 0
      ∧ (streamExecuteEvents taskId tool dlogs outcome s).getLast? = some (.error msg)) := by
  have hpre : ∀ e ∈ SSEEvent.start taskId tool :: dlogs.map SSEEvent.log,
      isChunk e = false ∧ isToolResult e = false ∧ isTerminal e = false := by
    intro e he
    rcases List.mem_cons.mp he with rfl | hm
    · exact ⟨rfl, rfl, rfl⟩
    · obtain ⟨m, _, rfl⟩ := List.mem_map.mp hm
      exact ⟨rfl, rfl, rfl⟩
  refine ⟨rfl, ?_, ?_, ?_, ?_⟩
  · cases outcome with
    | error msg =>
      simp [streamExecuteEvents, List.filter_cons, List.filter_append,
        filter_isTerminal_log_map, isTerminal, isDone, isErrorEvent]
    | ok raw =>
      cases s with
      | ok chunks =>
        simp [streamExecuteEvents, List.filter_cons, List.filter_append,
          filter_isTerminal_log_map, filter_isTerminal_chunkEvents,
          isTerminal, isDone, isErrorEvent]
      | failed before =>
        simp [streamExecuteEvents, List.filter_cons, List.filter_append,
          filter_isTerminal_log_map, filter_isTerminal_chunkEvents,
          isTerminal, isDone, isErrorEvent]
  · cases outcome with
    | error msg =>
      refine ⟨.error msg, ?_, rfl⟩
      have hsplit : streamExecuteEvents taskId tool dlogs (.error msg) s
          = (SSEEvent.start taskId tool :: dlogs.map SSEEvent.log)
              ++ [SSEEvent.error msg] := by
        simp [streamExecuteEvents]
      rw [hsplit, List.getLast?_concat]
    | ok raw =>
      cases s with
      | ok chunks =>
        refine ⟨.done (joinedSummary chunks), ?_, rfl⟩
        have hsplit : streamExecuteEvents taskId tool dlogs (.ok raw) (.ok chunks)
            = (SSEEvent.start taskId tool :: dlogs.map SSEEvent.log
                ++ SSEEvent.toolResult raw :: chunkEvents chunks)
                ++ [SSEEvent.done (joinedSummary chunks)] := by
          simp [streamExecuteEvents]
        rw [hsplit, List.getLast?_concat]
      | failed before =>
        refine ⟨.done raw, ?_, rfl⟩
        have hsplit : streamExecuteEvents taskId tool dlogs (.ok raw) (.failed before)
            = (SSEEvent.start taskId tool :: dlogs.map SSEEvent.log
                ++ SSEEvent.toolResult raw ::
                  (chunkEvents before ++ [SSEEvent.summaryChunk raw]))
                ++ [SSEEvent.done raw] := by
          simp [streamExecuteEvents]
        rw [hsplit, List.getLast?_concat]
  · intro raw hraw
    subst hraw
    constructor
    · cases s with
      | ok chunks =>
        simp [streamExecuteEvents, List.filter_cons, List.filter_append,
          filter_isToolResult_log_map, filter_isToolResult_chunkEvents,
          isToolResult]
      | failed before =>
        simp [streamExecuteEvents, List.filter_cons, List.filter_append,
          filter_isToolResult_log_map, filter_isToolResult_chunkEvents,
          isToolResult]
    · refine ⟨SSEEvent.start taskId tool :: dlogs.map SSEEvent.log,
        (match s with
         | .ok chunks => chunkEvents chunks ++ [SSEEvent.done (joinedSummary chunks)]
         | .failed before => chunkEvents before ++
             [SSEEvent.summaryChunk raw, SSEEvent.done raw]),
        rfl, hpre, ?_⟩
      intro e he
      cases s with
      | ok chunks =>
        rcases List.mem_append.mp he with hm | hm
        · obtain ⟨c, rfl⟩ := mem_chunkEvents_exists hm
          rfl
        · rcases List.mem_singleton.mp hm with rfl
          rfl
      | failed before =>
        rcases List.mem_append.mp he with hm | hm
        · obtain ⟨c, rfl⟩ := mem_chunkEvents_exists hm
          rfl
        · rcases List.mem_cons.mp hm with rfl | hm2
          · rfl
          · rcases List.mem_singleton.mp hm2 with rfl
            rfl
  · intro msg hmsg
    subst hmsg
    constructor
    · simp [streamExecuteEvents, List.filter_cons, List.filter_append,
        filter_isToolResult_log_map, isToolResult]
    · have hsplit : streamExecuteEvents taskId tool dlogs (.error msg) s
          = (SSEEvent.start taskId tool :: dlogs.map SSEEvent.log)
              ++ [SSEEvent.error msg] := by
        simp [streamExecuteEvents]
      rw [hsplit, List.getLast?_concat]

/-- Witness for C1: the dispatch-throws hypothesis instantiated concretely —
no `tool_result` is emitted and the stream ends with the `error` event, and
the dispatch-succeeds hypothesis instantiated concretely — exactly one
`tool_result`. -/
theorem stream_execute_event_protocol_witness :
    ((streamExecuteEvents "t1" "browser" ["fetching"] (.error "boom")
        (.ok [])).filter isToolResult).length = 0
    ∧ ((streamExecuteEvents "t2" "search" [] (.ok "RAW")
        (.ok ["a", "b"])).filter isToolResult).length = 1 := by
  constructor
  · exact ((stream_execute_event_protocol "t1" "browser" ["fetching"]
      (.error "boom") (.ok [])).2.2.2.2 "boom" rfl).1
  · exact ((stream_execute_event_protocol "t2" "search" [] (.ok "RAW")
      (.ok ["a", "b"])).2.2.2.1 "RAW" rfl).1

/-! ### C6 — summarizer failure degrades to the raw result -/

/-- C6: when dispatch succeeds and the summarizer stream fails, no `error`
event is emitted; the stream ends with a `summary_chunk` carrying the raw
tool result immediately followed by `done` carrying the raw result; `done` is
the unique terminal carrying the raw result; and when the summarizer fails
before yielding any chunk the raw result is the single `summary_chunk` of
the stream. -/
theorem summarizer_failure_degrades (taskId tool : String) (dlogs : List String)
    (raw : String) (before : List String) :
    (∀ e ∈ streamExecuteEvents taskId tool dlogs (.ok raw) (.failed before),
      isErrorEvent e = false)
    ∧ (∃ pre, streamExecuteEvents taskId tool dlogs (.ok raw) (.failed before)
        = pre ++ [SSEEvent.summaryChunk raw, SSEEvent.done raw])
    ∧ (streamExecuteEvents taskId tool dlogs (.ok raw) (.failed before)).filter
        isDone = [SSEEvent.done raw]
    ∧ (before = [] →
      (streamExecuteEvents taskId tool dlogs (.ok raw) (.failed before)).filter
        isChunk = [SSEEvent.summaryChunk raw]) := by
  refine ⟨?_, ?_, ?_, ?_⟩
  · intro e he
    simp only [streamExecuteEvents] at he
    rcases List.mem_cons.mp he with rfl | he2
    · rfl
    rcases List.mem_append.mp he2 with hm | hm
    · obtain ⟨m, _, rfl⟩ := List.mem_map.mp hm
      rfl
    rcases List.mem_cons.mp hm with rfl | hm2
    · rfl
    rcases List.mem_append.mp hm2 with hm3 | hm3
    · obtain ⟨c, rfl⟩ := mem_chunkEvents_exists hm3
      rfl
    rcases List.mem_cons.mp hm3 with rfl | hm4
    · rfl
    rcases List.mem_singleton.mp hm4 with rfl
    rfl
  · refine ⟨SSEEvent.start taskId tool :: dlogs.map SSEEvent.log ++
      SSEEvent.toolResult raw :: chunkEvents before, ?_⟩
    simp [streamExecuteEvents, List.append_assoc]
  · simp [streamExecuteEvents, List.filter_cons, List.filter_append,
      filter_isDone_log_map, filter_isDone_chunkEvents, isDone]
  · intro hb
    subst hb
    simp [streamExecuteEvents, chunkEvents, List.filter_cons, List.filter_append,
      filter_isChunk_log_map, isChunk]

/-- Witness for C6: with a summarizer that fails immediately, the stream for
a successful dispatch carries the raw result as its single `summary_chunk`. -/
theorem summarizer_failure_degrades_witness :
    (streamExecuteEvents "t1" "search" [] (.ok "RAW") (.failed [])).filter isChunk
      = [SSEEvent.summaryChunk "RAW"] :=
  (summarizer_failure_degrades "t1" "search" [] "RAW" []).2.2.2 rfl

/-! ### C8 — at most one of `result`/`error` populated after completion -/

/-- Folding any run of non-terminal events over a stored task leaves its
`status` and `error` fields untouched. -/
theorem foldl_nonterminal_preserves (evs : List SSEEvent)
    (h : ∀ e ∈ evs, isDone e = false ∧ isErrorEvent e = false) :
    ∀ t : Task, ((evs.foldl applyClientEvent t).status = t.status
      ∧ (evs.foldl applyClientEvent t).error = t.error) := by
  induction evs with
  | nil => exact fun t => ⟨rfl, rfl⟩
  | cons e rest ih =>
    intro t
    have he := h e (List.mem_cons_self _ _)
    have hrest := ih (fun x hx => h x (List.mem_cons.mpr (Or.inr hx)))
    rw [List.foldl_cons]
    have happ : (applyClientEvent t e).status = t.status
        ∧ (applyClientEvent t e).error = t.error := by
      cases e <;> simp_all [applyClientEvent, isDone, isErrorEvent]
    exact ⟨(hrest _).1.trans happ.1, (hrest _).2.trans happ.2⟩

/-- Folding a run of `log` events over a stored task leaves its `result`
untouched. -/
theorem foldl_log_preserves_result (ls : List String) :
    ∀ t : Task, ((ls.map SSEEvent.log).foldl applyClientEvent t).result = t.result := by
  induction ls with
  | nil => exact fun t => rfl
  | cons m rest ih =>
    intro t
    rw [List.map_cons, List.foldl_cons]
    exact (ih _).trans rfl

/-- C8: running a fresh task (no `error` set) against the event stream the
server emits for it — a successful dispatch ends the task in `success` with
`error` still unset (whether or not the summarizer failed), and a throwing
dispatch ends it in `failed` with `error` set to the thrown message and its
accumulated `result` the empty string. -/
theorem task_result_error_exclusive (t : Task) (dlogs : List String)
    (outcome : Except String String) (s : SummarizerRun)
    (hfresh : t.error = none) :
    (∀ raw, outcome = .ok raw →
      (executeTaskInternal t (streamExecuteEvents t.id t.tool dlogs outcome s)).status
          = .success
      ∧ (executeTaskInternal t (streamExecuteEvents t.id t.tool dlogs outcome s)).error
          = none)
    ∧ (∀ e, outcome = .error e →
      (executeTaskInternal t (streamExecuteEvents t.id t.tool dlogs outcome s)).status
          = .failed
      ∧ (executeTaskInternal t (streamExecuteEvents t.id t.tool dlogs outcome s)).error
          = some e
      ∧ (executeTaskInternal t (streamExecuteEvents t.id t.tool dlogs outcome s)).result
          = some "") := by
  constructor
  · intro raw hraw
    subst hraw
    -- the stream is a run of non-terminal events followed by the single `done`
    obtain ⟨pre, dn, hsplit, hprene⟩ :
        ∃ pre dn, streamExecuteEvents t.id t.tool dlogs (.ok raw) s
            = pre ++ [SSEEvent.done dn]
          ∧ ∀ e ∈ pre, isDone e = false ∧ isErrorEvent e = false := by
      cases s with
      | ok chunks =>
        refine ⟨SSEEvent.start t.id t.tool :: dlogs.map SSEEvent.log
            ++ SSEEvent.toolResult raw :: chunkEvents chunks,
          joinedSummary chunks, by simp [streamExecuteEvents], ?_⟩
        intro e he
        rcases List.mem_cons.mp he with rfl | he2
        · exact ⟨rfl, rfl⟩
        rcases List.mem_append.mp he2 with hm | hm
        · obtain ⟨m, _, rfl⟩ := List.mem_map.mp hm
          exact ⟨rfl, rfl⟩
        rcases List.mem_cons.mp hm with rfl | hm2
        · exact ⟨rfl, rfl⟩
        obtain ⟨c, rfl⟩ := mem_chunkEvents_exists hm2
        exact ⟨rfl, rfl⟩
      | failed before =>
        refine ⟨SSEEvent.start t.id t.tool :: dlogs.map SSEEvent.log
            ++ SSEEvent.toolResult raw ::
              (chunkEvents before ++ [SSEEvent.summaryChunk raw]),
          raw, by simp [streamExecuteEvents], ?_⟩
        intro e he
        rcases List.mem_cons.mp he with rfl | he2
        · exact ⟨rfl, rfl⟩
        rcases List.mem_append.mp he2 with hm | hm
        · obtain ⟨m, _, rfl⟩ := List.mem_map.mp hm
          exact ⟨rfl, rfl⟩
        rcases List.mem_cons.mp hm with rfl | hm2
        · exact ⟨rfl, rfl⟩
        rcases List.mem_append.mp hm2 with hm3 | hm3
        · obtain ⟨c, rfl⟩ := mem_chunkEvents_exists hm3
          exact ⟨rfl, rfl⟩
        rcases List.mem_singleton.mp hm3 with rfl
        exact ⟨rfl, rfl⟩
    unfold executeTaskInternal
    rw [hsplit, List.foldl_append]
    have hmid := foldl_nonterminal_preserves pre hprene
      { t with status := .executing, result := some "" }
    refine ⟨rfl, ?_⟩
    show (pre.foldl applyClientEvent _).error = none
    exact (hmid.2).trans hfresh
  · intro e he
    subst he
    have hsplit : streamExecuteEvents t.id t.tool dlogs (.error e) s
        = (SSEEvent.start t.id t.tool :: dlogs.map SSEEvent.log)
            ++ [SSEEvent.error e] := by
      simp [streamExecuteEvents]
    unfold executeTaskInternal
    rw [hsplit, List.foldl_append]
    refine ⟨rfl, rfl, ?_⟩
    show (applyClientEvent _ (SSEEvent.error e)).result = some ""
    have hlog : ((SSEEvent.start t.id t.tool :: dlogs.map SSEEvent.log).foldl
        applyClientEvent { t with status := .executing, result := some "" }).result
        = some "" := by
      rw [List.foldl_cons]
      exact foldl_log_preserves_result dlogs _
    simp only [applyClientEvent]
    exact hlog

/-- Fresh task used by the C8 witness. -/
def freshTask : Task := ⟨"t1", "look it up", "search", [], 1, .pending, none, none, none⟩

/-- Witness for C8: a fresh task whose dispatch throws ends `failed` with the
thrown message as `error` and an empty `result`. -/
theorem task_result_error_exclusive_witness :
    (executeTaskInternal freshTask (streamExecuteEvents freshTask.id freshTask.tool
        [] (.error "boom") (.ok []))).status = .failed
    ∧ (executeTaskInternal freshTask (streamExecuteEvents freshTask.id freshTask.tool
        [] (.error "boom") (.ok []))).error = some "boom"
    ∧ (executeTaskInternal freshTask (streamExecuteEvents freshTask.id freshTask.tool
        [] (.error "boom") (.ok []))).result = some "" :=
  (task_result_error_exclusive freshTask [] (.error "boom") (.ok []) rfl).2 "boom" rfl

/-! ### C2 — sequential execution with failure isolation -/

/-- Three-task plan of the sample scenario (filesystem, slack, calendar). -/
def mkSampleTask (i tool : String) : Task :=
  ⟨i, "task " ++ i, tool, [], 1, .pending, none, none, none⟩

def sampleTasks : List Task :=
  [mkSampleTask "t1" "filesystem", mkSampleTask "t2" "slack", mkSampleTask "t3" "calendar"]

/-- Streams of the sample scenario: the first task's adapter throws, the
other two dispatch and summarize normally. -/
def sampleStream (t : Task) : List SSEEvent :=
  if t.id = "t1" then
    streamExecuteEvents t.id t.tool [] (.error "adapter threw") (.ok [])
  else
    streamExecuteEvents t.id t.tool [] (.ok "raw output") (.ok ["summary"])

/-- C2: the driving loop runs every task of the plan exactly once, in list
order, each against its own stream and unaffected by the outcomes of the
other tasks (the `try/catch` swallows a rejection, so the loop continues
unconditionally); a plan of n tasks yields n executions; in the sample
3-task scenario whose first adapter throws the final statuses are
`[failed, success, success]`. -/
theorem tasks_execute_in_order_and_isolated :
    (∀ (streamOf : Task → List SSEEvent) (tasks : List Task),
      executeTasksSequentially streamOf tasks
        = tasks.map (fun t => executeTaskInternal t (streamOf t)))
    ∧ (∀ (streamOf : Task → List SSEEvent) (tasks : List Task),
      (executeTasksSequentially streamOf tasks).length = tasks.length)
    ∧ (executeTasksSequentially sampleStream sampleTasks).map (fun t => t.status)
        = [.failed, .success, .success] := by
  have hmap : ∀ (streamOf : Task → List SSEEvent) (tasks : List Task),
      executeTasksSequentially streamOf tasks
        = tasks.map (fun t => executeTaskInternal t (streamOf t)) := by
    intro streamOf tasks
    induction tasks with
    | nil => rfl
    | cons t rest ih => simp [executeTasksSequentially, ih]
  refine ⟨hmap, ?_, ?_⟩
  · intro streamOf tasks
    rw [hmap]
    exact List.length_map _ _
  · decide

end MCP
